import Mathlib

/-!
Verification of the calibration-math subsystem of the 3D-Modeling repository
(`amit/adjustments.py`), shallowly embedded in Lean 4.

Depth frames are embedded as `List (List ℚ)` (row-major 2-D numpy arrays of
depth values; a value of 0 means "no valid depth sample"), point clouds as
`List (ℚ × ℚ × ℚ)`.  Machine floats are modelled by exact rationals; the
float value NaN produced by `np.average([])` is modelled by `Option.none`,
and Python exceptions are modelled by `Except.error`.
-/

/-- Camera intrinsics: resolution plus the pinhole parameters that the
camera projection model uses.  Modelled from the spec: the Camera Projection
Model is an external collaborator (`pyrealsense2`); only focal lengths,
principal point and resolution are relevant to the embedded operations. -/
structure Intrinsics where
  width : ℕ
  height : ℕ
  fx : ℚ
  fy : ℚ
  ppx : ℚ
  ppy : ℚ

/-- Modelled from the spec: the Camera Projection Model's deprojection
(pixel + depth → 3-D point), pinhole with no distortion, as in
`rs2_deproject_pixel_to_point(intrinsics, [px, py], depth)`. -/
def rs2_deproject_pixel_to_point (intr : Intrinsics) (px py : ℕ) (depth : ℚ) :
    ℚ × ℚ × ℚ :=
  (((px : ℚ) - intr.ppx) / intr.fx * depth,
   ((py : ℚ) - intr.ppy) / intr.fy * depth,
   depth)

/-- Modelled from the spec: the Camera Projection Model's projection
(3-D point → pixel), pinhole with no distortion, as in
`rs2_project_point_to_pixel(intrinsics, [x, y, z])`.  The division by the
depth component is undefined at `z = 0`; that degenerate case is modelled
as an error. -/
def rs2_project_point_to_pixel (intr : Intrinsics) (x y z : ℚ) :
    Except String (ℚ × ℚ) :=
  if z = 0 then .error "ZeroDivisionError"
  else .ok (x / z * intr.fx + intr.ppx, y / z * intr.fy + intr.ppy)

/-- `frame.shape[0]` of a 2-D numpy array: the number of rows. -/
def shape0 (F : List (List ℚ)) : ℕ := F.length

/-- `frame.shape[1]` of a 2-D numpy array: the number of columns, read off
the first row (numpy arrays are rectangular, so every row has this length). -/
def shape1 (F : List (List ℚ)) : ℕ := (F.headD []).length

/-- `frame[i][j]`: the depth value at row `i`, column `j` (0 outside). -/
def cell (F : List (List ℚ)) (i j : ℕ) : ℚ := (F.getD i []).getD j 0

/-- `np.average` of a Python list of floats: NaN (`none`) when the list is
empty, otherwise the arithmetic mean. -/
def npAverage (l : List ℚ) : Option ℚ :=
  if l.isEmpty then none else some (l.sum / (l.length : ℚ))

/-- Python 3 `round`: round half to even (banker's rounding). -/
def pyRound (q : ℚ) : ℤ :=
  let n := ⌊q⌋
  let f := q - (n : ℚ)
  if f < 1/2 then n
  else if 1/2 < f then n + 1
  else if Even n then n else n + 1

/-- Python `int(...)` on a number: truncation toward zero. -/
def pyInt (q : ℚ) : ℤ := if 0 ≤ q then ⌊q⌋ else -⌊-q⌋

/-- `np.zeros(shape=(r, c))`. -/
def zeros (r c : ℕ) : List (List ℚ) := List.replicate r (List.replicate c 0)

/-- Pure in-bounds write `frame[i][j] = v` (no-op out of bounds; the code
paths that use it only reach it with in-bounds indices). -/
def fillCell (F : List (List ℚ)) (i j : ℕ) (v : ℚ) : List (List ℚ) :=
  F.set i ((F.getD i []).set j v)

/-- numpy item assignment `frame[i][j] = v` with Python integer indices:
negative indices wrap around once, indices outside `[-len, len)` raise
`IndexError`. -/
def npSet2 (F : List (List ℚ)) (i j : ℤ) (v : ℚ) :
    Except String (List (List ℚ)) :=
  if -(F.length : ℤ) ≤ i ∧ i < (F.length : ℤ) then
    let i1 : ℕ := (if i < 0 then i + (F.length : ℤ) else i).toNat
    let row := F.getD i1 []
    if -(row.length : ℤ) ≤ j ∧ j < (row.length : ℤ) then
      let j1 : ℕ := (if j < 0 then j + (row.length : ℤ) else j).toNat
      .ok (F.set i1 (row.set j1 v))
    else .error "IndexError"
  else .error "IndexError"

/-- `find_edge_mean(frame, edge, intrinsics)` from `amit/adjustments.py`.
For `right` it scans each row left to right and collects, at the first
nonzero pixel, the x-coordinate of the deprojected point (the for-loop with
`break` is the first hit of `List.find?` over the column range); `left`
scans each row right to left (`range(shape[1]-1, -1, -1)`, i.e. the
reversed range); `up` and `down` scan each column downward resp. upward
collecting y-coordinates.  `np.average` of the collected values is NaN
(`none`) when no pixel was found; an unknown edge tag raises. -/
def find_edge_mean (F : List (List ℚ)) (edge : String) (intr : Intrinsics) :
    Except String (Option ℚ) :=
  if edge = "right" then
    .ok (npAverage ((List.range (shape0 F)).filterMap (fun i =>
      ((List.range (shape1 F)).find? (fun j => decide (cell F i j ≠ 0))).map
        (fun j => (rs2_deproject_pixel_to_point intr j i (cell F i j)).1))))
  else if edge = "left" then
    .ok (npAverage ((List.range (shape0 F)).filterMap (fun i =>
      (((List.range (shape1 F)).reverse).find? (fun j => decide (cell F i j ≠ 0))).map
        (fun j => (rs2_deproject_pixel_to_point intr j i (cell F i j)).1))))
  else if edge = "up" then
    .ok (npAverage ((List.range (shape1 F)).filterMap (fun j =>
      ((List.range (shape0 F)).find? (fun i => decide (cell F i j ≠ 0))).map
        (fun i => (rs2_deproject_pixel_to_point intr j i (cell F i j)).2.1))))
  else if edge = "down" then
    .ok (npAverage ((List.range (shape1 F)).filterMap (fun j =>
      (((List.range (shape0 F)).reverse).find? (fun i => decide (cell F i j ≠ 0))).map
        (fun i => (rs2_deproject_pixel_to_point intr j i (cell F i j)).2.1))))
  else .error (edge ++ " is not an edge")

/-- `average_z_frame(frame, shape)` from `amit/adjustments.py`.
For `flat` it averages every cell of the frame (the nested
`for row in frame: for z in row` appends every cell, zero or not).
For `cylinder` the source executes `for j in range(frame.shape[1] / 2)`;
in Python 3 `/` on integers produces a float and `range` of a float raises
`TypeError`, so the branch raises on any frame with at least one row (the
later `frame[i][(left + right) / 2]` would likewise index with a float);
with zero rows the outer loop never runs and `np.average([])` is NaN.
Any other shape tag raises. -/
def average_z_frame (F : List (List ℚ)) (shape : String) :
    Except String (Option ℚ) :=
  if shape = "flat" then .ok (npAverage F.flatten)
  else if shape = "cylinder" then
    if F.length = 0 then .ok (npAverage [])
    else .error "TypeError"
  else .error (shape ++ " is not a shape")

/-- `np.min(pc, axis=0)` on an N×3 array: componentwise minimum of the
rows; raises `ValueError` on a zero-size array. -/
def np_min_axis0 : List (ℚ × ℚ × ℚ) → Except String (ℚ × ℚ × ℚ)
  | [] => .error "ValueError"
  | p :: ps =>
    .ok (ps.foldl (fun a q => (min a.1 q.1, min a.2.1 q.2.1, min a.2.2 q.2.2)) p)

/-- `np.max(pc, axis=0)` on an N×3 array: componentwise maximum of the
rows; raises `ValueError` on a zero-size array. -/
def np_max_axis0 : List (ℚ × ℚ × ℚ) → Except String (ℚ × ℚ × ℚ)
  | [] => .error "ValueError"
  | p :: ps =>
    .ok (ps.foldl (fun a q => (max a.1 q.1, max a.2.1 q.2.1, max a.2.2 q.2.2)) p)

/-- `np.average(pc, axis=0)[2]`: the mean of the z column.  (In the source
it is only evaluated after `np.min` succeeded, so the input is nonempty
there; on `[]` numpy would give NaN, never reached.) -/
def meanZ (P : List (ℚ × ℚ × ℚ)) : ℚ := (P.map (·.2.2)).sum / (P.length : ℚ)

/-- `calculate_pc_adjustments_by_pcs(object_pc, captured_pc)` from
`amit/adjustments.py`: per-axis extrema of both clouds, then
`x_shift = ((maxO.x - maxC.x) + (minO.x - minC.x)) / 2`,
`y_shift = maxO.y - maxC.y`, `z_shift = mean z(object) - mean z(captured)`.
The `np.min`/`np.max` reductions raise on an empty cloud. -/
def calculate_pc_adjustments_by_pcs (objP capP : List (ℚ × ℚ × ℚ)) :
    Except String (ℚ × ℚ × ℚ) := do
  let minsObj ← np_min_axis0 objP
  let minsCap ← np_min_axis0 capP
  let maxsObj ← np_max_axis0 objP
  let maxsCap ← np_max_axis0 capP
  return (((maxsObj.1 - maxsCap.1) + (minsObj.1 - minsCap.1)) / 2,
          maxsObj.2.1 - maxsCap.2.1,
          meanZ objP - meanZ capP)

/-- Float subtraction with NaN propagation. -/
def optSub (a b : Option ℚ) : Option ℚ :=
  match a, b with
  | some x, some y => some (x - y)
  | _, _ => none

/-- Float addition with NaN propagation. -/
def optAdd (a b : Option ℚ) : Option ℚ :=
  match a, b with
  | some x, some y => some (x + y)
  | _, _ => none

/-- Float halving with NaN propagation. -/
def optHalf (a : Option ℚ) : Option ℚ := a.map (fun x => x / 2)

/-- `calculate_pc_adjustments_by_frames(object_frame, captured_frame,
intrinsics, shape)` from `amit/adjustments.py`: edge means give the x and y
shifts, `average_z_frame` the z shift.  A NaN edge mean or average (an
all-zero frame) propagates into the corresponding component; an exception
from `average_z_frame` propagates out of the whole call. -/
def calculate_pc_adjustments_by_frames (objF capF : List (List ℚ))
    (intr : Intrinsics) (shape : String) :
    Except String (Option ℚ × Option ℚ × Option ℚ) := do
  let ro ← find_edge_mean objF "right" intr
  let rc ← find_edge_mean capF "right" intr
  let lo ← find_edge_mean objF "left" intr
  let lc ← find_edge_mean capF "left" intr
  let uo ← find_edge_mean objF "up" intr
  let uc ← find_edge_mean capF "up" intr
  let zo ← average_z_frame objF shape
  let zc ← average_z_frame capF shape
  return (optHalf (optAdd (optSub ro rc) (optSub lo lc)),
          optSub uo uc,
          optSub zo zc)

/-- `convert_pc_to_frame(pc, intrinsics)` from `amit/adjustments.py`:
start from `np.zeros(shape=(intrinsics.width, intrinsics.height))`, and for
each point `(x, y, z)` compute `j, i = rs2_project_point_to_pixel(...)`,
round both pixel coordinates with Python `round`, and assign
`frame[i][j] = z` (numpy assignment: negative indices wrap, out-of-range
indices raise `IndexError`). -/
def convert_pc_to_frame (pc : List (ℚ × ℚ × ℚ)) (intr : Intrinsics) :
    Except String (List (List ℚ)) :=
  pc.foldlM (fun frame p => do
      let pr ← rs2_project_point_to_pixel intr p.1 p.2.1 p.2.2
      npSet2 frame (pyRound pr.2) (pyRound pr.1) p.2.2)
    (zeros intr.width intr.height)

/-- `range(a, b)` over Python integers. -/
def intRange (a b : ℤ) : List ℤ :=
  (List.range (b - a).toNat).map (fun k : ℕ => a + (k : ℤ))

/-- Spec wording (C2): the smallest column index `j < shape1 F` with
`F[i][j] ≠ 0` in row `i`, if the row contains a nonzero cell. -/
def leastNonzeroCol (F : List (List ℚ)) (i : ℕ) : Option ℕ :=
  if h : ∃ j, j < shape1 F ∧ cell F i j ≠ 0 then some (Nat.find h) else none

/-- Spec wording (C2): the largest column index `j < shape1 F` with
`F[i][j] ≠ 0` in row `i`, if the row contains a nonzero cell. -/
def greatestNonzeroCol (F : List (List ℚ)) (i : ℕ) : Option ℕ :=
  if ∃ j, j < shape1 F ∧ cell F i j ≠ 0 then
    some (Nat.findGreatest (fun j => cell F i j ≠ 0) (shape1 F - 1))
  else none

/-- Spec wording (C2): the smallest row index `i < shape0 F` with
`F[i][j] ≠ 0` in column `j`, if the column contains a nonzero cell. -/
def leastNonzeroRow (F : List (List ℚ)) (j : ℕ) : Option ℕ :=
  if h : ∃ i, i < shape0 F ∧ cell F i j ≠ 0 then some (Nat.find h) else none

/-- Spec wording (C2): the largest row index `i < shape0 F` with
`F[i][j] ≠ 0` in column `j`, if the column contains a nonzero cell. -/
def greatestNonzeroRow (F : List (List ℚ)) (j : ℕ) : Option ℕ :=
  if ∃ i, i < shape0 F ∧ cell F i j ≠ 0 then
    some (Nat.findGreatest (fun i => cell F i j ≠ 0) (shape0 F - 1))
  else none

/-- Spec wording (C1): fold a binary operation over a nonempty list of
per-axis coordinates (0 on the empty list, which the claims exclude). -/
def axisFold (f : ℚ → ℚ → ℚ) : List ℚ → ℚ
  | [] => 0
  | x :: xs => xs.foldl f x

/-- Spec wording (C1): `min_x` over all points of a cloud. -/
def minX (P : List (ℚ × ℚ × ℚ)) : ℚ := axisFold min (P.map (·.1))

/-- Spec wording (C1): `max_x` over all points of a cloud. -/
def maxX (P : List (ℚ × ℚ × ℚ)) : ℚ := axisFold max (P.map (·.1))

/-- Spec wording (C1): `max_y` over all points of a cloud. -/
def maxY (P : List (ℚ × ℚ × ℚ)) : ℚ := axisFold max (P.map (·.2.1))

/-- Spec wording (C9): the `r × c` frame whose cells inside the index
rectangle `[lo1, hi1) × [lo2, hi2)` hold `v` and whose other cells are 0. -/
def filledFrame (r c : ℕ) (lo1 hi1 lo2 hi2 : ℤ) (v : ℚ) : List (List ℚ) :=
  (List.range r).map (fun i : ℕ =>
    (List.range c).map (fun j : ℕ =>
      if lo1 ≤ (i : ℤ) ∧ (i : ℤ) < hi1 ∧ lo2 ≤ (j : ℤ) ∧ (j : ℤ) < hi2 then v
      else 0))

/-- A rectangular `r × c` frame. -/
def Rect (F : List (List ℚ)) (r c : ℕ) : Prop :=
  F.length = r ∧ ∀ row ∈ F, row.length = c

/-- `generate_frame_flat_surface(width, height, distance, intrinsics)` from
`amit/adjustments.py`: project the corner `(width/2, height/2, distance)`
to pixel coordinates `(max_j, max_i)`, clamp by `min` against the
resolution and truncate with `int(...)`, then fill rows
`range(intrinsics.height - max_i, max_i)` and columns
`range(intrinsics.width - max_j, max_j)` of an all-zero
`(intrinsics.height, intrinsics.width)` frame with `distance`. -/
def generate_frame_flat_surface (w h d : ℚ) (intr : Intrinsics) :
    Except String (List (List ℚ)) := do
  let pr ← rs2_project_point_to_pixel intr (w / 2) (h / 2) d
  let mi : ℤ := pyInt (min pr.2 (intr.height : ℚ))
  let mj : ℤ := pyInt (min pr.1 (intr.width : ℚ))
  (intRange ((intr.height : ℤ) - mi) mi).foldlM (fun fr i =>
      (intRange ((intr.width : ℤ) - mj) mj).foldlM (fun fr2 j =>
        npSet2 fr2 i j d) fr)
    (zeros intr.height intr.width)

/-- A sample camera for concrete instantiations: 2×2 resolution, unit
focal lengths, principal point at the origin. -/
def sampleIntr : Intrinsics := ⟨2, 2, 1, 1, 0, 0⟩

/-- A sample 4×4 camera. -/
def sampleIntr4 : Intrinsics := ⟨4, 4, 1, 1, 0, 0⟩

/-- A degenerate 1×1 camera. -/
def sampleIntr1 : Intrinsics := ⟨1, 1, 1, 1, 0, 0⟩

/-- A 2×2 camera with principal point (1, 1). -/
def sampleIntrPP : Intrinsics := ⟨2, 2, 1, 1, 1, 1⟩

/-- A camera whose width (2) differs from its height (3). -/
def sampleIntrWH : Intrinsics := ⟨2, 3, 1, 1, 0, 0⟩

theorem find_range_none (n : ℕ) (p : ℕ → Prop) [DecidablePred p]
    (h : ∀ k, k < n → ¬ p k) :
    (List.range n).find? (fun k => decide (p k)) = none := by
  rw [List.find?_eq_none]
  intro x hx
  simpa using h x (List.mem_range.mp hx)

theorem find_range_rev_none (n : ℕ) (p : ℕ → Prop) [DecidablePred p]
    (h : ∀ k, k < n → ¬ p k) :
    ((List.range n).reverse).find? (fun k => decide (p k)) = none := by
  rw [List.find?_eq_none]
  intro x hx
  simpa using h x (List.mem_range.mp (List.mem_reverse.mp hx))

theorem find_range_some (n : ℕ) (p : ℕ → Prop) [DecidablePred p] (m : ℕ)
    (hm : m < n) (hp : p m) (hmin : ∀ k, k < m → ¬ p k) :
    (List.range n).find? (fun k => decide (p k)) = some m := by
  induction n with
  | zero => omega
  | succ n ih =>
    rw [List.range_succ, List.find?_append]
    rcases Nat.lt_succ_iff_lt_or_eq.mp hm with hlt | rfl
    · rw [ih hlt]
      rfl
    · rw [find_range_none m p hmin]
      simp [hp]

theorem find_range_rev_some (n : ℕ) (p : ℕ → Prop) [DecidablePred p] (m : ℕ)
    (hm : m < n) (hp : p m) (hmax : ∀ k, m < k → k < n → ¬ p k) :
    ((List.range n).reverse).find? (fun k => decide (p k)) = some m := by
  induction n with
  | zero => omega
  | succ n ih =>
    rw [List.range_succ, List.reverse_append]
    rcases Nat.lt_succ_iff_lt_or_eq.mp hm with hlt | rfl
    · have hpn : ¬ p n := hmax n hlt (Nat.lt_succ_self n)
      simpa [hpn] using ih hlt (fun k h1 h2 => hmax k h1 (Nat.lt_succ_of_lt h2))
    · simp [hp]

theorem leastNonzeroCol_eq (F : List (List ℚ)) (i : ℕ) :
    (List.range (shape1 F)).find? (fun j => decide (cell F i j ≠ 0))
      = leastNonzeroCol F i := by
  rw [leastNonzeroCol]
  by_cases h : ∃ j, j < shape1 F ∧ cell F i j ≠ 0
  · rw [dif_pos h]
    exact find_range_some _ _ _ (Nat.find_spec h).1 (Nat.find_spec h).2
      (fun k hk hpk => Nat.find_min h hk ⟨hk.trans (Nat.find_spec h).1, hpk⟩)
  · rw [dif_neg h]
    push_neg at h
    exact find_range_none _ _ (fun k hk hpk => hpk (h k hk))

theorem greatestNonzeroCol_eq (F : List (List ℚ)) (i : ℕ) :
    ((List.range (shape1 F)).reverse).find? (fun j => decide (cell F i j ≠ 0))
      = greatestNonzeroCol F i := by
  rw [greatestNonzeroCol]
  by_cases h : ∃ j, j < shape1 F ∧ cell F i j ≠ 0
  · rw [if_pos h]
    obtain ⟨k, hk, hpk⟩ := h
    have h1 : 1 ≤ shape1 F := by omega
    refine find_range_rev_some _ _ _ ?_ ?_ ?_
    · have := Nat.findGreatest_le (P := fun j => cell F i j ≠ 0) (shape1 F - 1)
      omega
    · exact Nat.findGreatest_spec (P := fun j => cell F i j ≠ 0) (m := k) (by omega) hpk
    · intro k2 hk2 hk2n hpk2
      have := Nat.le_findGreatest (P := fun j => cell F i j ≠ 0) (m := k2)
        (n := shape1 F - 1) (by omega) hpk2
      omega
  · rw [if_neg h]
    push_neg at h
    exact find_range_rev_none _ _ (fun k hk hpk => hpk (h k hk))

theorem leastNonzeroRow_eq (F : List (List ℚ)) (j : ℕ) :
    (List.range (shape0 F)).find? (fun i => decide (cell F i j ≠ 0))
      = leastNonzeroRow F j := by
  rw [leastNonzeroRow]
  by_cases h : ∃ i, i < shape0 F ∧ cell F i j ≠ 0
  · rw [dif_pos h]
    exact find_range_some _ _ _ (Nat.find_spec h).1 (Nat.find_spec h).2
      (fun k hk hpk => Nat.find_min h hk ⟨hk.trans (Nat.find_spec h).1, hpk⟩)
  · rw [dif_neg h]
    push_neg at h
    exact find_range_none _ _ (fun k hk hpk => hpk (h k hk))

theorem greatestNonzeroRow_eq (F : List (List ℚ)) (j : ℕ) :
    ((List.range (shape0 F)).reverse).find? (fun i => decide (cell F i j ≠ 0))
      = greatestNonzeroRow F j := by
  rw [greatestNonzeroRow]
  by_cases h : ∃ i, i < shape0 F ∧ cell F i j ≠ 0
  · rw [if_pos h]
    obtain ⟨k, hk, hpk⟩ := h
    refine find_range_rev_some _ _ _ ?_ ?_ ?_
    · have := Nat.findGreatest_le (P := fun i => cell F i j ≠ 0) (shape0 F - 1)
      omega
    · exact Nat.findGreatest_spec (P := fun i => cell F i j ≠ 0) (m := k) (by omega) hpk
    · intro k2 hk2 hk2n hpk2
      have := Nat.le_findGreatest (P := fun i => cell F i j ≠ 0) (m := k2)
        (n := shape0 F - 1) (by omega) hpk2
      omega
  · rw [if_neg h]
    push_neg at h
    exact find_range_rev_none _ _ (fun k hk hpk => hpk (h k hk))

theorem npAverage_nil : npAverage [] = none := rfl

theorem npAverage_of_ne_nil (l : List ℚ) (h : l ≠ []) :
    npAverage l = some (l.sum / (l.length : ℚ)) := by
  simp [npAverage, h]

/-- C2: `find_edge_mean(frame, edge, intrinsics)` equals, for `right`, the
average over exactly those rows containing a nonzero cell of the
x-coordinate of the deprojection of (pixel (j, i), depth frame[i][j]) where
`j` is the smallest column index with `frame[i][j] ≠ 0` in row `i`; `left`
uses the largest such column index per row; `up` (resp. `down`) averages
the y-coordinate over columns using the smallest (resp. largest) row index
with a nonzero cell; rows/columns with no nonzero cell are excluded from
the average rather than counted as zero. -/
theorem claim2_edge_mean_spec (F : List (List ℚ)) (intr : Intrinsics) :
    (find_edge_mean F "right" intr
      = .ok (npAverage ((List.range (shape0 F)).filterMap (fun i =>
          (leastNonzeroCol F i).map
            (fun j => (rs2_deproject_pixel_to_point intr j i (cell F i j)).1)))))
    ∧ (find_edge_mean F "left" intr
      = .ok (npAverage ((List.range (shape0 F)).filterMap (fun i =>
          (greatestNonzeroCol F i).map
            (fun j => (rs2_deproject_pixel_to_point intr j i (cell F i j)).1)))))
    ∧ (find_edge_mean F "up" intr
      = .ok (npAverage ((List.range (shape1 F)).filterMap (fun j =>
          (leastNonzeroRow F j).map
            (fun i => (rs2_deproject_pixel_to_point intr j i (cell F i j)).2.1)))))
    ∧ (find_edge_mean F "down" intr
      = .ok (npAverage ((List.range (shape1 F)).filterMap (fun j =>
          (greatestNonzeroRow F j).map
            (fun i => (rs2_deproject_pixel_to_point intr j i (cell F i j)).2.1))))) := by
  refine ⟨?_, ?_, ?_, ?_⟩
  · simp only [find_edge_mean, if_pos rfl, leastNonzeroCol_eq, ite_true]
  · have h1 : ¬ (("left" : String) = "right") := by decide
    simp only [find_edge_mean, if_neg h1, if_pos rfl, greatestNonzeroCol_eq, ite_true]
  · have h1 : ¬ (("up" : String) = "right") := by decide
    have h2 : ¬ (("up" : String) = "left") := by decide
    simp only [find_edge_mean, if_neg h1, if_neg h2, if_pos rfl, leastNonzeroRow_eq, ite_true]
  · have h1 : ¬ (("down" : String) = "right") := by decide
    have h2 : ¬ (("down" : String) = "left") := by decide
    have h3 : ¬ (("down" : String) = "up") := by decide
    simp only [find_edge_mean, if_neg h1, if_neg h2, if_neg h3, if_pos rfl,
      greatestNonzeroRow_eq, ite_true]

theorem foldl_triple (f : ℚ → ℚ → ℚ) (ps : List (ℚ × ℚ × ℚ)) :
    ∀ p : ℚ × ℚ × ℚ,
      ps.foldl (fun a q => (f a.1 q.1, f a.2.1 q.2.1, f a.2.2 q.2.2)) p
        = ((ps.map (·.1)).foldl f p.1,
           (ps.map (·.2.1)).foldl f p.2.1,
           (ps.map (·.2.2)).foldl f p.2.2) := by
  induction ps with
  | nil => intro p; rfl
  | cons q qs ih => intro p; simp only [List.foldl_cons, List.map_cons, ih]

theorem np_min_axis0_cons (p : ℚ × ℚ × ℚ) (ps : List (ℚ × ℚ × ℚ)) :
    np_min_axis0 (p :: ps)
      = .ok (minX (p :: ps),
             axisFold min ((p :: ps).map (·.2.1)),
             axisFold min ((p :: ps).map (·.2.2))) := by
  simp only [np_min_axis0, minX, axisFold, List.map_cons, foldl_triple]

theorem np_max_axis0_cons (p : ℚ × ℚ × ℚ) (ps : List (ℚ × ℚ × ℚ)) :
    np_max_axis0 (p :: ps)
      = .ok (maxX (p :: ps),
             maxY (p :: ps),
             axisFold max ((p :: ps).map (·.2.2))) := by
  simp only [np_max_axis0, maxX, maxY, axisFold, List.map_cons, foldl_triple]

theorem pc_adjustments_eq (objP capP : List (ℚ × ℚ × ℚ))
    (hO : objP ≠ []) (hC : capP ≠ []) :
    calculate_pc_adjustments_by_pcs objP capP
      = .ok (((maxX objP - maxX capP) + (minX objP - minX capP)) / 2,
             maxY objP - maxY capP,
             meanZ objP - meanZ capP) := by
  obtain ⟨p, ps, rfl⟩ := List.exists_cons_of_ne_nil hO
  obtain ⟨q, qs, rfl⟩ := List.exists_cons_of_ne_nil hC
  simp only [calculate_pc_adjustments_by_pcs, np_min_axis0_cons, np_max_axis0_cons,
    bind, Except.bind, pure, Except.pure]

/-- C1: for non-empty point clouds, `calculate_pc_adjustments_by_pcs`
returns exactly the triple
`x_shift = ((max_x(obj) - max_x(cap)) + (min_x(obj) - min_x(cap))) / 2`,
`y_shift = max_y(obj) - max_y(cap)`,
`z_shift = mean_z(obj) - mean_z(cap)`, with per-axis extrema and means
taken over all points of the respective cloud. -/
theorem claim1_pc_adjustments_formula (objP capP : List (ℚ × ℚ × ℚ))
    (hO : objP ≠ []) (hC : capP ≠ []) :
    calculate_pc_adjustments_by_pcs objP capP
      = .ok (((maxX objP - maxX capP) + (minX objP - minX capP)) / 2,
             maxY objP - maxY capP,
             meanZ objP - meanZ capP) :=
  pc_adjustments_eq objP capP hO hC

/-- Witness for C1 at the concrete clouds `[(0,0,0)]` and `[(1,2,3)]`:
the formula evaluates to `(-1, -2, -3)`. -/
theorem claim1_pc_adjustments_formula_witness :
    calculate_pc_adjustments_by_pcs [((0 : ℚ), (0 : ℚ), (0 : ℚ))]
        [((1 : ℚ), (2 : ℚ), (3 : ℚ))]
      = .ok (-1, -2, -3) := by
  have h := claim1_pc_adjustments_formula [((0 : ℚ), (0 : ℚ), (0 : ℚ))]
    [((1 : ℚ), (2 : ℚ), (3 : ℚ))] (by decide) (by decide)
  rw [h]
  norm_num [maxX, minX, maxY, meanZ, axisFold]

/-- C6 counterexample: on the empty point cloud (a legal N×3 array with
N = 0 per the data model), `calculate_pc_adjustments_by_pcs` raises
(`np.min` of a zero-size array), so it does not return the zero shift. -/
theorem claim6_counterexample :
    calculate_pc_adjustments_by_pcs [] [] ≠ .ok (0, 0, 0) := by
  have h : calculate_pc_adjustments_by_pcs [] [] = .error "ValueError" := rfl
  rw [h]
  simp

/-- C6 (amended): for every non-empty point cloud `P`,
`calculate_pc_adjustments_by_pcs P P` returns the zero shift `(0, 0, 0)`. -/
theorem claim6_self_adjustment_zero (P : List (ℚ × ℚ × ℚ)) (hP : P ≠ []) :
    calculate_pc_adjustments_by_pcs P P = .ok (0, 0, 0) := by
  rw [pc_adjustments_eq P P hP hP]
  norm_num

/-- Witness for C6 (amended) at the concrete cloud `[(1,2,3)]`. -/
theorem claim6_self_adjustment_zero_witness :
    calculate_pc_adjustments_by_pcs [((1 : ℚ), (2 : ℚ), (3 : ℚ))]
        [((1 : ℚ), (2 : ℚ), (3 : ℚ))]
      = .ok (0, 0, 0) :=
  claim6_self_adjustment_zero [((1 : ℚ), (2 : ℚ), (3 : ℚ))] (by decide)

/-- C3: for every frame with at least one cell, `average_z_frame(F, flat)`
is the arithmetic mean of every cell of `F`, zero (no-data) cells
included. -/
theorem claim3_average_z_flat (F : List (List ℚ)) (h : F.flatten ≠ []) :
    average_z_frame F "flat"
      = .ok (some (F.flatten.sum / (F.flatten.length : ℚ))) := by
  simp only [average_z_frame, if_pos rfl, npAverage_of_ne_nil F.flatten h, ite_true]

/-- Witness for C3 at the 2×2 frame `[[1,0],[0,3]]`: the flat average is
exactly 1 (sum 4 over 4 cells, zeros included). -/
theorem claim3_average_z_flat_witness :
    average_z_frame [[1, 0], [0, 3]] "flat" = .ok (some 1) := by
  have h := claim3_average_z_flat [[1, 0], [0, 3]] (by decide)
  rw [h]
  norm_num

/-- C4: the cylinder branch of `average_z_frame` does not compute the
claimed per-row midpoint average: on any frame with at least one row the
source raises `TypeError`, because `range(frame.shape[1] / 2)` passes a
float to `range` in Python 3 (and `frame[i][(left + right) / 2]` would
likewise index with a float).  Evaluated here at the frame
`[[1,0],[0,3]]`. -/
theorem claim4_cylinder_type_error :
    average_z_frame [[1, 0], [0, 3]] "cylinder" = .error "TypeError" := rfl

/-- C7: on a frame all of whose (in-range) cells are zero, `find_edge_mean`
returns the NaN of an empty average (`none`) for each of the four edge
tags, rather than the number 0. -/
theorem claim7_edge_mean_all_zero (F : List (List ℚ)) (intr : Intrinsics)
    (h : ∀ i, i < shape0 F → ∀ j, j < shape1 F → cell F i j = 0) :
    (find_edge_mean F "right" intr = .ok none)
    ∧ (find_edge_mean F "left" intr = .ok none)
    ∧ (find_edge_mean F "up" intr = .ok none)
    ∧ (find_edge_mean F "down" intr = .ok none) := by
  have hall : ∀ i j, i < shape0 F → j < shape1 F → ¬ (cell F i j ≠ 0) :=
    fun i j hi hj hne => hne (h i hi j hj)
  have hcolF : ∀ i, i < shape0 F →
      (List.range (shape1 F)).find? (fun j => decide (cell F i j ≠ 0)) = none :=
    fun i hi => find_range_none _ _ (fun j hj => hall i j hi hj)
  have hcolR : ∀ i, i < shape0 F →
      ((List.range (shape1 F)).reverse).find? (fun j => decide (cell F i j ≠ 0)) = none :=
    fun i hi => find_range_rev_none _ _ (fun j hj => hall i j hi hj)
  have hrowF : ∀ j, j < shape1 F →
      (List.range (shape0 F)).find? (fun i => decide (cell F i j ≠ 0)) = none :=
    fun j hj => find_range_none _ _ (fun i hi => hall i j hi hj)
  have hrowR : ∀ j, j < shape1 F →
      ((List.range (shape0 F)).reverse).find? (fun i => decide (cell F i j ≠ 0)) = none :=
    fun j hj => find_range_rev_none _ _ (fun i hi => hall i j hi hj)
  have e2 : ¬ (("left" : String) = "right") := by decide
  have e3 : ¬ (("up" : String) = "right") := by decide
  have e4 : ¬ (("up" : String) = "left") := by decide
  have e5 : ¬ (("down" : String) = "right") := by decide
  have e6 : ¬ (("down" : String) = "left") := by decide
  have e7 : ¬ (("down" : String) = "up") := by decide
  refine ⟨?_, ?_, ?_, ?_⟩
  · simp only [find_edge_mean, if_pos rfl, ite_true]
    rw [List.filterMap_eq_nil_iff.mpr
      (fun i hi => by rw [hcolF i (List.mem_range.mp hi)]; rfl)]
    rfl
  · simp only [find_edge_mean, if_neg e2, if_pos rfl, ite_true]
    rw [List.filterMap_eq_nil_iff.mpr
      (fun i hi => by rw [hcolR i (List.mem_range.mp hi)]; rfl)]
    rfl
  · simp only [find_edge_mean, if_neg e3, if_neg e4, if_pos rfl, ite_true]
    rw [List.filterMap_eq_nil_iff.mpr
      (fun j hj => by rw [hrowF j (List.mem_range.mp hj)]; rfl)]
    rfl
  · simp only [find_edge_mean, if_neg e5, if_neg e6, if_neg e7, if_pos rfl, ite_true]
    rw [List.filterMap_eq_nil_iff.mpr
      (fun j hj => by rw [hrowR j (List.mem_range.mp hj)]; rfl)]
    rfl

/-- Witness for C7 at the all-zero 2×2 frame. -/
theorem claim7_edge_mean_all_zero_witness :
    (find_edge_mean [[0, 0], [0, 0]] "right" sampleIntr = .ok none)
    ∧ (find_edge_mean [[0, 0], [0, 0]] "left" sampleIntr = .ok none)
    ∧ (find_edge_mean [[0, 0], [0, 0]] "up" sampleIntr = .ok none)
    ∧ (find_edge_mean [[0, 0], [0, 0]] "down" sampleIntr = .ok none) :=
  claim7_edge_mean_all_zero [[0, 0], [0, 0]] sampleIntr (by decide)

theorem cell_ne_zero_bounds (F : List (List ℚ)) (i j : ℕ)
    (h : cell F i j ≠ 0) : i < F.length ∧ j < (F.getD i []).length := by
  constructor
  · by_contra hi
    push_neg at hi
    rw [cell, List.getD_eq_default _ _ hi] at h
    simp at h
  · by_contra hj
    push_neg at hj
    rw [cell, List.getD_eq_default _ _ hj] at h
    exact h rfl

theorem filterMap_ne_nil {α β : Type} (f : α → Option β) (l : List α)
    (a : α) (b : β) (ha : a ∈ l) (hb : f a = some b) : l.filterMap f ≠ [] := by
  intro hnil
  have : b ∈ l.filterMap f := List.mem_filterMap.mpr ⟨a, ha, hb⟩
  rw [hnil] at this
  exact List.not_mem_nil b this

/-- C5 counterexample: on the all-zero 1×1 frame with shape `flat`, the
self-adjustment is `(NaN, NaN, 0)` — the edge means are averages of empty
collections — so it is not the zero shift vector.  (With shape `cylinder`
the call raises `TypeError` instead of returning at all.) -/
theorem claim5_counterexample :
    calculate_pc_adjustments_by_frames [[0]] [[0]] sampleIntr "flat"
      ≠ .ok (some 0, some 0, some 0) := by
  have h : calculate_pc_adjustments_by_frames [[0]] [[0]] sampleIntr "flat"
      = .ok (none, none, some 0) := by
    simp only [calculate_pc_adjustments_by_frames, find_edge_mean, average_z_frame,
      bind, Except.bind, pure, Except.pure, optSub, optAdd, optHalf]
    norm_num [shape0, shape1, cell, npAverage]
  rw [h]
  simp

/-- C5 (amended): for every frame with at least one nonzero in-range cell,
`calculate_pc_adjustments_by_frames(F, F, intrinsics, flat)` returns the
zero shift vector; the identity cannot extend to shape `cylinder`, whose
branch raises `TypeError` on every frame with a row, nor to all-zero
frames, where the components are NaN. -/
theorem claim5_self_adjustment_zero (F : List (List ℚ)) (intr : Intrinsics)
    (h : ∃ i j, j < shape1 F ∧ cell F i j ≠ 0) :
    calculate_pc_adjustments_by_frames F F intr "flat"
      = .ok (some 0, some 0, some 0) := by
  obtain ⟨i0, j0, hj0, hnz⟩ := h
  have hb := cell_ne_zero_bounds F i0 j0 hnz
  have hi0 : i0 < shape0 F := hb.1
  have e2 : ¬ (("left" : String) = "right") := by decide
  have e3 : ¬ (("up" : String) = "right") := by decide
  have e4 : ¬ (("up" : String) = "left") := by decide
  -- the three edge scans that feed the shift are all nonempty
  have hfR : ∃ jr, (List.range (shape1 F)).find?
      (fun j => decide (cell F i0 j ≠ 0)) = some jr := by
    rw [← Option.isSome_iff_exists, List.find?_isSome]
    exact ⟨j0, List.mem_range.mpr hj0, by simpa using hnz⟩
  have hfL : ∃ jl, ((List.range (shape1 F)).reverse).find?
      (fun j => decide (cell F i0 j ≠ 0)) = some jl := by
    rw [← Option.isSome_iff_exists, List.find?_isSome]
    exact ⟨j0, List.mem_reverse.mpr (List.mem_range.mpr hj0), by simpa using hnz⟩
  have hfU : ∃ iu, (List.range (shape0 F)).find?
      (fun i => decide (cell F i j0 ≠ 0)) = some iu := by
    rw [← Option.isSome_iff_exists, List.find?_isSome]
    exact ⟨i0, List.mem_range.mpr hi0, by simpa using hnz⟩
  obtain ⟨jr, hjr⟩ := hfR
  obtain ⟨jl, hjl⟩ := hfL
  obtain ⟨iu, hiu⟩ := hfU
  have hvR : (List.range (shape0 F)).filterMap (fun i =>
      ((List.range (shape1 F)).find? (fun j => decide (cell F i j ≠ 0))).map
        (fun j => (rs2_deproject_pixel_to_point intr j i (cell F i j)).1)) ≠ [] :=
    filterMap_ne_nil _ _ i0 _ (List.mem_range.mpr hi0) (by rw [hjr]; rfl)
  have hvL : (List.range (shape0 F)).filterMap (fun i =>
      (((List.range (shape1 F)).reverse).find? (fun j => decide (cell F i j ≠ 0))).map
        (fun j => (rs2_deproject_pixel_to_point intr j i (cell F i j)).1)) ≠ [] :=
    filterMap_ne_nil _ _ i0 _ (List.mem_range.mpr hi0) (by rw [hjl]; rfl)
  have hvU : (List.range (shape1 F)).filterMap (fun j =>
      ((List.range (shape0 F)).find? (fun i => decide (cell F i j ≠ 0))).map
        (fun i => (rs2_deproject_pixel_to_point intr j i (cell F i j)).2.1)) ≠ [] :=
    filterMap_ne_nil _ _ j0 _ (List.mem_range.mpr hj0) (by rw [hiu]; rfl)
  -- the flat average exists because the frame has a cell
  have hvZ : F.flatten ≠ [] := by
    intro hflat
    have hrow : F.getD i0 [] ∈ F := by
      rw [List.getD_eq_getElem?_getD]
      rw [List.getElem?_eq_getElem hb.1]
      exact List.getElem_mem hb.1
    have : F.getD i0 [] = [] := List.flatten_eq_nil_iff.mp hflat _ hrow
    rw [this] at hb
    simp at hb
  have hR : find_edge_mean F "right" intr = .ok (some (((List.range (shape0 F)).filterMap (fun i =>
      ((List.range (shape1 F)).find? (fun j => decide (cell F i j ≠ 0))).map
        (fun j => (rs2_deproject_pixel_to_point intr j i (cell F i j)).1))).sum
      / (((List.range (shape0 F)).filterMap (fun i =>
      ((List.range (shape1 F)).find? (fun j => decide (cell F i j ≠ 0))).map
        (fun j => (rs2_deproject_pixel_to_point intr j i (cell F i j)).1))).length : ℚ))) := by
    simp only [find_edge_mean, if_pos rfl, ite_true, npAverage_of_ne_nil _ hvR]
  have hL : find_edge_mean F "left" intr = .ok (some (((List.range (shape0 F)).filterMap (fun i =>
      (((List.range (shape1 F)).reverse).find? (fun j => decide (cell F i j ≠ 0))).map
        (fun j => (rs2_deproject_pixel_to_point intr j i (cell F i j)).1))).sum
      / (((List.range (shape0 F)).filterMap (fun i =>
      (((List.range (shape1 F)).reverse).find? (fun j => decide (cell F i j ≠ 0))).map
        (fun j => (rs2_deproject_pixel_to_point intr j i (cell F i j)).1))).length : ℚ))) := by
    simp only [find_edge_mean, if_neg e2, if_pos rfl, ite_true, npAverage_of_ne_nil _ hvL]
  have hU : find_edge_mean F "up" intr = .ok (some (((List.range (shape1 F)).filterMap (fun j =>
      ((List.range (shape0 F)).find? (fun i => decide (cell F i j ≠ 0))).map
        (fun i => (rs2_deproject_pixel_to_point intr j i (cell F i j)).2.1))).sum
      / (((List.range (shape1 F)).filterMap (fun j =>
      ((List.range (shape0 F)).find? (fun i => decide (cell F i j ≠ 0))).map
        (fun i => (rs2_deproject_pixel_to_point intr j i (cell F i j)).2.1))).length : ℚ))) := by
    simp only [find_edge_mean, if_neg e3, if_neg e4, if_pos rfl, ite_true, npAverage_of_ne_nil _ hvU]
  have hZ : average_z_frame F "flat"
      = .ok (some (F.flatten.sum / (F.flatten.length : ℚ))) := by
    simp only [average_z_frame, if_pos rfl, ite_true, npAverage_of_ne_nil _ hvZ]
  simp only [calculate_pc_adjustments_by_frames, hR, hL, hU, hZ, bind, Except.bind,
    pure, Except.pure, optSub, optAdd, optHalf, Option.map_some']
  norm_num

/-- Witness for C5 (amended) at the frame `[[1]]`. -/
theorem claim5_self_adjustment_zero_witness :
    calculate_pc_adjustments_by_frames [[1]] [[1]] sampleIntr "flat"
      = .ok (some 0, some 0, some 0) :=
  claim5_self_adjustment_zero [[1]] sampleIntr ⟨0, 0, by decide, by decide⟩

theorem zeros_rect (r c : ℕ) : Rect (zeros r c) r c := by
  refine ⟨by simp [zeros], fun row hrow => ?_⟩
  rw [List.eq_of_mem_replicate hrow]
  simp

theorem getD_set_eq {α : Type} (l : List α) (n : ℕ) (hn : n < l.length)
    (a d : α) : (l.set n a).getD n d = a := by
  rw [List.getD_eq_getElem?_getD, List.getElem?_set_self hn]
  rfl

theorem getD_set_ne {α : Type} (l : List α) (m n : ℕ) (h : m ≠ n)
    (a d : α) : (l.set m a).getD n d = l.getD n d := by
  rw [List.getD_eq_getElem?_getD, List.getElem?_set_ne h, ← List.getD_eq_getElem?_getD]

theorem cell_zeros (r c i j : ℕ) : cell (zeros r c) i j = 0 := by
  simp only [cell, zeros, List.getD_eq_getElem?_getD, List.getElem?_replicate]
  by_cases hi : i < r
  · rw [if_pos hi, Option.getD_some, List.getElem?_replicate]
    by_cases hj : j < c
    · rw [if_pos hj]
      rfl
    · rw [if_neg hj]
      rfl
  · rw [if_neg hi]
    simp

theorem rect_row (F : List (List ℚ)) (r c : ℕ) (hF : Rect F r c) (i : ℕ)
    (hi : i < r) : (F.getD i []).length = c := by
  have hlen : i < F.length := by rw [hF.1]; exact hi
  rw [List.getD_eq_getElem _ _ hlen]
  exact hF.2 _ (List.getElem_mem hlen)

theorem fillCell_rect (F : List (List ℚ)) (r c : ℕ) (hF : Rect F r c)
    (i j : ℕ) (v : ℚ) : Rect (fillCell F i j v) r c := by
  refine ⟨by rw [fillCell, List.length_set]; exact hF.1, fun row hrow => ?_⟩
  rcases Nat.lt_or_ge i F.length with hi | hi
  · rcases List.mem_or_eq_of_mem_set hrow with hmem | heq
    · exact hF.2 row hmem
    · rw [heq, List.length_set]
      exact rect_row F r c hF i (by rw [← hF.1]; exact hi)
  · rw [fillCell, List.set_eq_of_length_le hi] at hrow
    exact hF.2 row hrow

theorem fillCell_cell (F : List (List ℚ)) (r c : ℕ) (hF : Rect F r c)
    (a b : ℕ) (ha : a < r) (hb : b < c) (v : ℚ) (i j : ℕ) :
    cell (fillCell F a b v) i j = if i = a ∧ j = b then v else cell F i j := by
  have haF : a < F.length := by rw [hF.1]; exact ha
  have hrowlen : (F.getD a []).length = c := rect_row F r c hF a ha
  unfold cell fillCell
  rcases Decidable.em (i = a) with hia | hia
  · subst hia
    rw [getD_set_eq F i haF]
    rcases Decidable.em (j = b) with hjb | hjb
    · subst hjb
      rw [getD_set_eq _ j (by rw [hrowlen]; exact hb), if_pos ⟨rfl, rfl⟩]
    · rw [getD_set_ne _ b j (fun hc => hjb hc.symm), if_neg (fun hc => hjb hc.2)]
  · rw [getD_set_ne F a i (fun hc => hia hc.symm), if_neg (fun hc => hia hc.1)]

theorem npSet2_inbounds (F : List (List ℚ)) (i j : ℤ) (v : ℚ)
    (hi0 : 0 ≤ i) (hi : i < (F.length : ℤ))
    (hj0 : 0 ≤ j) (hj : j < ((F.getD i.toNat []).length : ℤ)) :
    npSet2 F i j v = .ok (fillCell F i.toNat j.toNat v) := by
  rw [npSet2, if_pos ⟨by omega, hi⟩]
  simp only [if_neg (by omega : ¬ i < 0)]
  rw [if_pos ⟨by omega, hj⟩]
  simp only [if_neg (by omega : ¬ j < 0)]
  rfl

theorem foldlM_nested {α γ : Type} (outer : List α) (inner : List γ)
    (g : List (List ℚ) → α → γ → Except String (List (List ℚ))) :
    ∀ b : List (List ℚ),
      outer.foldlM (fun acc x => inner.foldlM (fun acc2 y => g acc2 x y) acc) b
        = (outer.flatMap (fun x => inner.map (fun y => (x, y)))).foldlM
            (fun acc p => g acc p.1 p.2) b := by
  induction outer with
  | nil => intro b; simp
  | cons x xs ih =>
    intro b
    simp only [List.foldlM_cons, List.flatMap_cons, List.foldlM_append, List.foldlM_map]
    exact bind_congr (fun acc => ih acc)

theorem foldlM_npSet2_ok (v : ℚ) (r c : ℕ) (l : List (ℤ × ℤ)) :
    ∀ F : List (List ℚ), Rect F r c →
      (∀ p ∈ l, 0 ≤ p.1 ∧ p.1 < (r : ℤ) ∧ 0 ≤ p.2 ∧ p.2 < (c : ℤ)) →
      l.foldlM (fun G p => npSet2 G p.1 p.2 v) F
        = .ok (l.foldl (fun G p => fillCell G p.1.toNat p.2.toNat v) F) := by
  induction l with
  | nil => intro F _ _; rfl
  | cons p ps ih =>
    intro F hF hl
    obtain ⟨hp1, hp2, hp3, hp4⟩ := hl p (List.mem_cons_self p ps)
    have hstep : npSet2 F p.1 p.2 v = .ok (fillCell F p.1.toNat p.2.toNat v) := by
      refine npSet2_inbounds F p.1 p.2 v hp1 (by rw [hF.1]; exact hp2) hp3 ?_
      rw [rect_row F r c hF p.1.toNat (by omega)]
      exact hp4
    rw [List.foldlM_cons, hstep]
    have hF2 : Rect (fillCell F p.1.toNat p.2.toNat v) r c :=
      fillCell_rect F r c hF _ _ v
    simp only [bind, Except.bind]
    rw [ih _ hF2 (fun q hq => hl q (List.mem_cons_of_mem p hq))]
    rw [List.foldl_cons]

theorem foldl_fill_rect (v : ℚ) (r c : ℕ) (l : List (ℕ × ℕ)) :
    ∀ F : List (List ℚ), Rect F r c →
      Rect (l.foldl (fun G p => fillCell G p.1 p.2 v) F) r c := by
  induction l with
  | nil => intro F hF; exact hF
  | cons p ps ih =>
    intro F hF
    exact ih _ (fillCell_rect F r c hF _ _ v)

theorem cell_foldl_fill (v : ℚ) (r c : ℕ) (l : List (ℕ × ℕ)) :
    ∀ F : List (List ℚ), Rect F r c →
      (∀ p ∈ l, p.1 < r ∧ p.2 < c) →
      ∀ i j : ℕ,
        cell (l.foldl (fun G p => fillCell G p.1 p.2 v) F) i j
          = if (i, j) ∈ l then v else cell F i j := by
  induction l with
  | nil => intro F _ _ i j; simp
  | cons p ps ih =>
    intro F hF hl i j
    obtain ⟨hp1, hp2⟩ := hl p (List.mem_cons_self p ps)
    rw [List.foldl_cons,
      ih _ (fillCell_rect F r c hF _ _ v) (fun q hq => hl q (List.mem_cons_of_mem p hq)) i j,
      fillCell_cell F r c hF p.1 p.2 hp1 hp2 v i j]
    by_cases hmem : (i, j) ∈ ps
    · rw [if_pos hmem, if_pos (List.mem_cons_of_mem p hmem)]
    · rw [if_neg hmem]
      by_cases hpij : i = p.1 ∧ j = p.2
      · have : (i, j) = p := Prod.ext hpij.1 hpij.2
        rw [if_pos hpij, if_pos (this ▸ List.mem_cons_self p ps)]
      · rw [if_neg hpij, if_neg ?_]
        intro hc
        rcases List.mem_cons.mp hc with heq | hmem2
        · exact hpij ⟨congrArg Prod.fst heq, congrArg Prod.snd heq⟩
        · exact hmem hmem2

theorem mem_intRange (a b x : ℤ) : x ∈ intRange a b ↔ a ≤ x ∧ x < b := by
  unfold intRange
  simp only [List.mem_map, List.mem_range]
  constructor
  · rintro ⟨k, hk, rfl⟩
    omega
  · rintro ⟨h1, h2⟩
    exact ⟨(x - a).toNat, by omega, by omega⟩

theorem pyInt_le_nat (q : ℚ) (n : ℕ) (h : q ≤ (n : ℚ)) : pyInt q ≤ (n : ℤ) := by
  unfold pyInt
  by_cases h0 : 0 ≤ q
  · rw [if_pos h0]
    calc ⌊q⌋ ≤ ⌊(n : ℚ)⌋ := Int.floor_le_floor h
      _ = (n : ℤ) := by rw [Int.floor_natCast]
  · rw [if_neg h0]
    have : (0 : ℤ) ≤ ⌊-q⌋ := Int.floor_nonneg.mpr (by push_neg at h0; linarith)
    omega

theorem frame_eq_of_cells (F G : List (List ℚ)) (r c : ℕ)
    (hF : Rect F r c) (hG : Rect G r c)
    (h : ∀ i j : ℕ, i < r → j < c → cell F i j = cell G i j) : F = G := by
  apply List.ext_getElem (by rw [hF.1, hG.1])
  intro n h1 h2
  have hn : n < r := by rw [← hF.1]; exact h1
  apply List.ext_getElem
  · rw [hF.2 _ (List.getElem_mem h1), hG.2 _ (List.getElem_mem h2)]
  · intro m hm1 hm2
    have hm : m < c := by rw [← hF.2 _ (List.getElem_mem h1)]; exact hm1
    have hcF : cell F n m = F[n][m] := by
      rw [cell, List.getD_eq_getElem _ _ h1, List.getD_eq_getElem _ _ hm1]
    have hcG : cell G n m = G[n][m] := by
      rw [cell, List.getD_eq_getElem _ _ h2, List.getD_eq_getElem _ _ hm2]
    rw [← hcF, ← hcG]
    exact h n m hn hm

theorem filledFrame_rect (r c : ℕ) (lo1 hi1 lo2 hi2 : ℤ) (v : ℚ) :
    Rect (filledFrame r c lo1 hi1 lo2 hi2 v) r c := by
  constructor
  · simp [filledFrame]
  · intro row hrow
    simp only [filledFrame, List.mem_map] at hrow
    obtain ⟨i, _, rfl⟩ := hrow
    simp

theorem cell_filledFrame (r c : ℕ) (lo1 hi1 lo2 hi2 : ℤ) (v : ℚ) (i j : ℕ)
    (hi : i < r) (hj : j < c) :
    cell (filledFrame r c lo1 hi1 lo2 hi2 v) i j
      = if lo1 ≤ (i : ℤ) ∧ (i : ℤ) < hi1 ∧ lo2 ≤ (j : ℤ) ∧ (j : ℤ) < hi2 then v
        else 0 := by
  simp [cell, filledFrame, List.getD_eq_getElem?_getD, List.getElem?_map,
    List.getElem?_range, hi, hj]

theorem mem_pairs (a b a2 b2 : ℤ) (x : ℤ × ℤ) :
    x ∈ (intRange a b).flatMap (fun i => (intRange a2 b2).map (fun y => (i, y)))
      ↔ a ≤ x.1 ∧ x.1 < b ∧ a2 ≤ x.2 ∧ x.2 < b2 := by
  simp only [List.mem_flatMap, List.mem_map, mem_intRange]
  constructor
  · rintro ⟨i, hi, y, hy, rfl⟩
    exact ⟨hi.1, hi.2, hy.1, hy.2⟩
  · rintro ⟨h1, h2, h3, h4⟩
    exact ⟨x.1, ⟨h1, h2⟩, x.2, ⟨h3, h4⟩, rfl⟩

/-- C9: for every surface size, nonzero distance and intrinsics,
`generate_frame_flat_surface` returns the frame at the camera's resolution
whose centered rectangular region — the pixel extent obtained by projecting
the surface corner `(width/2, height/2, distance)` and clamping the pixel
coordinates to the resolution — is filled with the constant `distance`,
all other pixels being zero. -/
theorem claim9_flat_surface (w h d : ℚ) (intr : Intrinsics) (hd : d ≠ 0) :
    generate_frame_flat_surface w h d intr
      = .ok (filledFrame intr.height intr.width
          ((intr.height : ℤ) - pyInt (min (h / 2 / d * intr.fy + intr.ppy) (intr.height : ℚ)))
          (pyInt (min (h / 2 / d * intr.fy + intr.ppy) (intr.height : ℚ)))
          ((intr.width : ℤ) - pyInt (min (w / 2 / d * intr.fx + intr.ppx) (intr.width : ℚ)))
          (pyInt (min (w / 2 / d * intr.fx + intr.ppx) (intr.width : ℚ)))
          d) := by
  set mi : ℤ := pyInt (min (h / 2 / d * intr.fy + intr.ppy) (intr.height : ℚ)) with hmi_def
  set mj : ℤ := pyInt (min (w / 2 / d * intr.fx + intr.ppx) (intr.width : ℚ)) with hmj_def
  have hmi : mi ≤ (intr.height : ℤ) :=
    pyInt_le_nat _ _ (min_le_right _ _)
  have hmj : mj ≤ (intr.width : ℤ) :=
    pyInt_le_nat _ _ (min_le_right _ _)
  have hstep1 : generate_frame_flat_surface w h d intr
      = (intRange ((intr.height : ℤ) - mi) mi).foldlM (fun fr i =>
          (intRange ((intr.width : ℤ) - mj) mj).foldlM (fun fr2 j =>
            npSet2 fr2 i j d) fr)
        (zeros intr.height intr.width) := by
    simp only [generate_frame_flat_surface, rs2_project_point_to_pixel, if_neg hd,
      bind, Except.bind, hmi_def, hmj_def]
  rw [hstep1, foldlM_nested]
  set L : List (ℤ × ℤ) := (intRange ((intr.height : ℤ) - mi) mi).flatMap
    (fun i => (intRange ((intr.width : ℤ) - mj) mj).map (fun y => (i, y))) with hL_def
  have hbound : ∀ p ∈ L, 0 ≤ p.1 ∧ p.1 < (intr.height : ℤ)
      ∧ 0 ≤ p.2 ∧ p.2 < (intr.width : ℤ) := by
    intro p hp
    have := (mem_pairs _ _ _ _ p).mp hp
    omega
  rw [foldlM_npSet2_ok d intr.height intr.width L (zeros intr.height intr.width)
    (zeros_rect _ _) hbound]
  congr 1
  rw [← List.foldl_map (fun p : ℤ × ℤ => (p.1.toNat, p.2.toNat))
    (fun G q => fillCell G q.1 q.2 d) L (zeros intr.height intr.width)]
  have hboundN : ∀ q ∈ L.map (fun p : ℤ × ℤ => (p.1.toNat, p.2.toNat)),
      q.1 < intr.height ∧ q.2 < intr.width := by
    intro q hq
    obtain ⟨p, hp, rfl⟩ := List.mem_map.mp hq
    have := hbound p hp
    constructor <;> omega
  refine frame_eq_of_cells _ _ intr.height intr.width
    (foldl_fill_rect d _ _ _ _ (zeros_rect _ _))
    (filledFrame_rect _ _ _ _ _ _ _)
    (fun i j hi hj => ?_)
  rw [cell_foldl_fill d intr.height intr.width _ _ (zeros_rect _ _) hboundN i j,
    cell_filledFrame _ _ _ _ _ _ _ i j hi hj, cell_zeros]
  have hmem : (i, j) ∈ L.map (fun p : ℤ × ℤ => (p.1.toNat, p.2.toNat))
      ↔ ((intr.height : ℤ) - mi ≤ (i : ℤ) ∧ (i : ℤ) < mi
         ∧ (intr.width : ℤ) - mj ≤ (j : ℤ) ∧ (j : ℤ) < mj) := by
    rw [List.mem_map]
    constructor
    · rintro ⟨p, hp, heq⟩
      have hb := hbound p hp
      have hc := (mem_pairs _ _ _ _ p).mp hp
      have hi2 : (i : ℤ) = p.1 := by
        have := congrArg Prod.fst heq
        simp at this
        omega
      have hj2 : (j : ℤ) = p.2 := by
        have := congrArg Prod.snd heq
        simp at this
        omega
      omega
    · rintro ⟨h1, h2, h3, h4⟩
      refine ⟨((i : ℤ), (j : ℤ)), (mem_pairs _ _ _ _ _).mpr ⟨h1, h2, h3, h4⟩, ?_⟩
      simp
  by_cases hc : (intr.height : ℤ) - mi ≤ (i : ℤ) ∧ (i : ℤ) < mi
      ∧ (intr.width : ℤ) - mj ≤ (j : ℤ) ∧ (j : ℤ) < mj
  · rw [if_pos (hmem.mpr hc), if_pos hc]
  · rw [if_neg (fun hm => hc (hmem.mp hm)), if_neg hc]

/-- Witness for C9: a 2×2 physical surface at distance 1 seen by the 2×2
camera with principal point (1,1) fills the whole frame with 1. -/
theorem claim9_flat_surface_witness :
    generate_frame_flat_surface 2 2 1 sampleIntrPP = .ok [[1, 1], [1, 1]] := by
  have h := claim9_flat_surface 2 2 1 sampleIntrPP (by norm_num)
  rw [h]
  norm_num [sampleIntrPP, pyInt, filledFrame, List.range_succ]

theorem fillCell_fillCell (F : List (List ℚ)) (i j : ℕ) (a b : ℚ) :
    fillCell (fillCell F i j a) i j b = fillCell F i j b := by
  unfold fillCell
  rcases Nat.lt_or_ge i F.length with hi | hi
  · rw [getD_set_eq F i hi, List.set_set, List.set_set]
  · rw [List.set_eq_of_length_le hi (a := (F.getD i []).set j a)]

/-- C8 (amended): `convert_pc_to_frame` projects each point, rounds the
pixel coordinates (Python banker's rounding) and writes the depth into
that cell, the later point winning on collisions; on a single-point cloud
whose depth is nonzero and whose rounded projection lands inside the
array bounds it yields a frame with exactly one nonzero cell, holding that
depth at the rounded projection (row index = rounded vertical coordinate,
column index = rounded horizontal coordinate). -/
theorem claim8_single_point (intr : Intrinsics) (x y z : ℚ) (hz : z ≠ 0)
    (hi0 : 0 ≤ pyRound (y / z * intr.fy + intr.ppy))
    (hiw : pyRound (y / z * intr.fy + intr.ppy) < (intr.width : ℤ))
    (hj0 : 0 ≤ pyRound (x / z * intr.fx + intr.ppx))
    (hjh : pyRound (x / z * intr.fx + intr.ppx) < (intr.height : ℤ)) :
    ∃ G, convert_pc_to_frame [(x, y, z)] intr = .ok G
      ∧ cell G (pyRound (y / z * intr.fy + intr.ppy)).toNat
          (pyRound (x / z * intr.fx + intr.ppx)).toNat = z
      ∧ (∀ a b : ℕ, ¬(a = (pyRound (y / z * intr.fy + intr.ppy)).toNat
            ∧ b = (pyRound (x / z * intr.fx + intr.ppx)).toNat) → cell G a b = 0)
      ∧ ∀ x2 y2 z2 : ℚ, z2 ≠ 0 →
          pyRound (y2 / z2 * intr.fy + intr.ppy)
            = pyRound (y / z * intr.fy + intr.ppy) →
          pyRound (x2 / z2 * intr.fx + intr.ppx)
            = pyRound (x / z * intr.fx + intr.ppx) →
          convert_pc_to_frame [(x2, y2, z2), (x, y, z)] intr = .ok G := by
  set py := y / z * intr.fy + intr.ppy with hpy
  set px := x / z * intr.fx + intr.ppx with hpx
  set i1 := (pyRound py).toNat with hi1
  set j1 := (pyRound px).toNat with hj1
  have hzrect := zeros_rect intr.width intr.height
  have hi1w : i1 < intr.width := by omega
  have hj1h : j1 < intr.height := by omega
  have hset : ∀ F : List (List ℚ), Rect F intr.width intr.height → ∀ v : ℚ,
      npSet2 F (pyRound py) (pyRound px) v = .ok (fillCell F i1 j1 v) := by
    intro F hF v
    refine npSet2_inbounds F _ _ v hi0 (by rw [hF.1]; exact hiw) hj0 ?_
    rw [rect_row F _ _ hF i1 hi1w]
    exact hjh
  have hG : convert_pc_to_frame [(x, y, z)] intr
      = .ok (fillCell (zeros intr.width intr.height) i1 j1 z) := by
    simp only [convert_pc_to_frame, List.foldlM_cons, List.foldlM_nil,
      rs2_project_point_to_pixel, if_neg hz, bind, Except.bind]
    rw [hset _ hzrect z]
    rfl
  refine ⟨_, hG, ?_, ?_, ?_⟩
  · rw [fillCell_cell _ _ _ hzrect i1 j1 hi1w hj1h z i1 j1, if_pos ⟨rfl, rfl⟩]
  · intro a b hab
    rw [fillCell_cell _ _ _ hzrect i1 j1 hi1w hj1h z a b, if_neg hab, cell_zeros]
  · intro x2 y2 z2 hz2 hy2 hx2
    have hfrect := fillCell_rect _ _ _ hzrect i1 j1 z2
    simp only [convert_pc_to_frame, List.foldlM_cons, List.foldlM_nil,
      rs2_project_point_to_pixel, if_neg hz2, if_neg hz, bind, Except.bind]
    rw [hy2, hx2, hset _ hzrect z2]
    simp only [Except.bind]
    rw [hset _ hfrect z, fillCell_fillCell]
    rfl

/-- C8 counterexample: a single point whose rounded projection falls
outside the frame makes `convert_pc_to_frame` raise `IndexError` (numpy
assignment out of range) instead of producing a one-cell frame: the point
`(5, 5, 1)` seen by a 1×1 camera. -/
theorem claim8_counterexample :
    convert_pc_to_frame [((5 : ℚ), 5, 1)] sampleIntr1 = .error "IndexError" := by
  have hz : ¬ ((1 : ℚ) = 0) := by norm_num
  have hr : pyRound ((5 : ℚ) / 1 * 1 + 0) = 5 := by
    norm_num [pyRound]
  have hset : npSet2 (zeros sampleIntr1.width sampleIntr1.height) 5 5 1
      = .error "IndexError" := by
    rw [npSet2, if_neg]
    simp [zeros, sampleIntr1]
  simp only [convert_pc_to_frame, List.foldlM_cons, List.foldlM_nil,
    rs2_project_point_to_pixel, if_neg hz, bind, Except.bind]
  rw [show (5 : ℚ) / 1 * sampleIntr1.fy + sampleIntr1.ppy = (5 : ℚ) / 1 * 1 + 0 from rfl,
    show (5 : ℚ) / 1 * sampleIntr1.fx + sampleIntr1.ppx = (5 : ℚ) / 1 * 1 + 0 from rfl,
    hr, hset]

/-- Witness for C8 (amended): the point `(1, 1, 1)` on the 4×4 unit-focal
camera lands at pixel `(1, 1)` and produces exactly that one nonzero cell. -/
theorem claim8_single_point_witness :
    ∃ G, convert_pc_to_frame [((1 : ℚ), 1, 1)] sampleIntr4 = .ok G
      ∧ cell G 1 1 = 1
      ∧ ∀ a b : ℕ, ¬(a = 1 ∧ b = 1) → cell G a b = 0 := by
  have hry : (pyRound ((1 : ℚ) / 1 * sampleIntr4.fy + sampleIntr4.ppy)).toNat = 1 := by
    norm_num [pyRound, sampleIntr4]
  have hrx : (pyRound ((1 : ℚ) / 1 * sampleIntr4.fx + sampleIntr4.ppx)).toNat = 1 := by
    norm_num [pyRound, sampleIntr4]
  obtain ⟨G, hG, hcell, hzero, _⟩ := claim8_single_point sampleIntr4 1 1 1
    (by norm_num)
    (by norm_num [pyRound, sampleIntr4])
    (by norm_num [pyRound, sampleIntr4])
    (by norm_num [pyRound, sampleIntr4])
    (by norm_num [pyRound, sampleIntr4])
  rw [hry, hrx] at hcell
  refine ⟨G, hG, hcell, fun a b hab => ?_⟩
  have := hzero a b
  rw [hry, hrx] at this
  exact this hab

theorem npSet2_ok_rect (F : List (List ℚ)) (i j : ℤ) (v : ℚ)
    (F2 : List (List ℚ)) (r c : ℕ) (hF : Rect F r c)
    (h : npSet2 F i j v = .ok F2) : Rect F2 r c := by
  simp only [npSet2] at h
  by_cases h1 : -(F.length : ℤ) ≤ i ∧ i < (F.length : ℤ)
  · rw [if_pos h1] at h
    set I : ℕ := (if i < 0 then i + (F.length : ℤ) else i).toNat with hI
    by_cases h2 : -((F.getD I []).length : ℤ) ≤ j ∧ j < ((F.getD I []).length : ℤ)
    · rw [if_pos h2] at h
      injection h with h3
      subst h3
      exact fillCell_rect F r c hF _ _ v
    · rw [if_neg h2] at h
      exact Except.noConfusion h
  · rw [if_neg h1] at h
    exact Except.noConfusion h

theorem foldlM_rect_invariant {α : Type}
    (f : List (List ℚ) → α → Except String (List (List ℚ))) (r c : ℕ)
    (hf : ∀ b a b2, Rect b r c → f b a = .ok b2 → Rect b2 r c) :
    ∀ (l : List α) (b b2 : List (List ℚ)),
      Rect b r c → l.foldlM f b = .ok b2 → Rect b2 r c := by
  intro l
  induction l with
  | nil =>
    intro b b2 hb h
    simp only [List.foldlM_nil] at h
    injection h with h2
    subst h2
    exact hb
  | cons a l2 ih =>
    intro b b2 hb h
    simp only [List.foldlM_cons] at h
    cases hfa : f b a with
    | error e => rw [hfa] at h; simp [bind, Except.bind] at h
    | ok b3 =>
      rw [hfa] at h
      simp only [bind, Except.bind] at h
      exact ih b3 b2 (hf b a b3 hb hfa) h

/-- C10: `convert_pc_to_frame` allocates its frame as
`(intrinsics.width, intrinsics.height)` — first axis of length `width` —
while `generate_frame_flat_surface` allocates `(height, width)`; so for a
camera whose width differs from its height the two operations return
arrays with transposed dimensions, even though `convert_pc_to_frame`
indexes its first axis with the rounded vertical pixel coordinate. -/
theorem claim10_transposed_shapes (intr : Intrinsics)
    (pc : List (ℚ × ℚ × ℚ)) (w h d : ℚ) :
    (∀ F, convert_pc_to_frame pc intr = .ok F →
      F.length = intr.width ∧ ∀ row ∈ F, row.length = intr.height)
    ∧ (∀ G, generate_frame_flat_surface w h d intr = .ok G →
      G.length = intr.height ∧ ∀ row ∈ G, row.length = intr.width)
    ∧ (∀ x y z : ℚ, z ≠ 0 →
        0 ≤ pyRound (y / z * intr.fy + intr.ppy) →
        pyRound (y / z * intr.fy + intr.ppy) < (intr.width : ℤ) →
        0 ≤ pyRound (x / z * intr.fx + intr.ppx) →
        pyRound (x / z * intr.fx + intr.ppx) < (intr.height : ℤ) →
        convert_pc_to_frame [(x, y, z)] intr
          = .ok (fillCell (zeros intr.width intr.height)
              (pyRound (y / z * intr.fy + intr.ppy)).toNat
              (pyRound (x / z * intr.fx + intr.ppx)).toNat z)) := by
  refine ⟨?_, ?_, ?_⟩
  · intro F hF
    refine foldlM_rect_invariant _ intr.width intr.height ?_ pc
      (zeros intr.width intr.height) F (zeros_rect _ _) hF
    intro b a b2 hb hok
    cases hproj : rs2_project_point_to_pixel intr a.1 a.2.1 a.2.2 with
    | error e => rw [hproj] at hok; simp [bind, Except.bind] at hok
    | ok pr =>
      rw [hproj] at hok
      simp only [bind, Except.bind] at hok
      exact npSet2_ok_rect _ _ _ _ _ _ _ hb hok
  · intro G hG
    simp only [generate_frame_flat_surface] at hG
    cases hproj : rs2_project_point_to_pixel intr (w / 2) (h / 2) d with
    | error e => rw [hproj] at hG; simp [bind, Except.bind] at hG
    | ok pr =>
      rw [hproj] at hG
      simp only [bind, Except.bind] at hG
      refine foldlM_rect_invariant _ intr.height intr.width ?_ _
        (zeros intr.height intr.width) G (zeros_rect _ _) hG
      intro b a b2 hb hok
      exact foldlM_rect_invariant _ intr.height intr.width
        (fun b3 a2 b4 hb3 hok2 => npSet2_ok_rect _ _ _ _ _ _ _ hb3 hok2)
        _ b b2 hb hok
  · intro x y z hz hi0 hiw hj0 hjh
    have hset : npSet2 (zeros intr.width intr.height)
        (pyRound (y / z * intr.fy + intr.ppy))
        (pyRound (x / z * intr.fx + intr.ppx)) z
        = .ok (fillCell (zeros intr.width intr.height)
            (pyRound (y / z * intr.fy + intr.ppy)).toNat
            (pyRound (x / z * intr.fx + intr.ppx)).toNat z) := by
      refine npSet2_inbounds _ _ _ z hi0 ?_ hj0 ?_
      · rw [(zeros_rect intr.width intr.height).1]
        exact hiw
      · rw [rect_row _ _ _ (zeros_rect intr.width intr.height) _ (by omega)]
        exact hjh
    simp only [convert_pc_to_frame, List.foldlM_cons, List.foldlM_nil,
      rs2_project_point_to_pixel, if_neg hz, bind, Except.bind]
    rw [hset]
    rfl

/-- Witness for C10 at the 2×3 camera `sampleIntrWH` (width 2 ≠ height 3):
the point-cloud frame is 2×3 (first axis = width), the synthesized flat
frame is 3×2 (first axis = height), and the single-point write of
`(1, 1, 1)` lands at first-axis index 1 = the rounded vertical pixel
coordinate. -/
theorem claim10_transposed_shapes_witness :
    ((zeros 2 3).length = 2 ∧ ∀ row ∈ zeros 2 3, row.length = 3)
    ∧ ((zeros 3 2).length = 3 ∧ ∀ row ∈ zeros 3 2, row.length = 2)
    ∧ convert_pc_to_frame [((1 : ℚ), 1, 1)] sampleIntrWH
        = .ok (fillCell (zeros 2 3) 1 1 1) := by
  obtain ⟨hA, hB, hC⟩ := claim10_transposed_shapes sampleIntrWH [] 1 1 1
  refine ⟨hA (zeros 2 3) rfl, ?_, ?_⟩
  · refine hB (zeros 3 2) ?_
    have hd : ¬ ((1 : ℚ) = 0) := by norm_num
    have hmi : pyInt (min ((1 : ℚ) / 2 / 1 * sampleIntrWH.fy + sampleIntrWH.ppy)
        ((sampleIntrWH.height : ℕ) : ℚ)) = 0 := by
      norm_num [pyInt, min_def, sampleIntrWH]
    have hmj : pyInt (min ((1 : ℚ) / 2 / 1 * sampleIntrWH.fx + sampleIntrWH.ppx)
        ((sampleIntrWH.width : ℕ) : ℚ)) = 0 := by
      norm_num [pyInt, min_def, sampleIntrWH]
    simp only [generate_frame_flat_surface, rs2_project_point_to_pixel, if_neg hd,
      bind, Except.bind, hmi, hmj]
    rfl
  · have hry : (pyRound ((1 : ℚ) / 1 * sampleIntrWH.fy + sampleIntrWH.ppy)).toNat = 1 := by
      norm_num [pyRound, sampleIntrWH]
    have hrx : (pyRound ((1 : ℚ) / 1 * sampleIntrWH.fx + sampleIntrWH.ppx)).toNat = 1 := by
      norm_num [pyRound, sampleIntrWH]
    have h := hC 1 1 1 (by norm_num)
      (by norm_num [pyRound, sampleIntrWH])
      (by norm_num [pyRound, sampleIntrWH])
      (by norm_num [pyRound, sampleIntrWH])
      (by norm_num [pyRound, sampleIntrWH])
    rw [hry, hrx] at h
    exact h
